import Mathlib

/-!
Shallow embedding of `src/aws/ecs/ecs-status.py`.

The script fetches ECS inventory through three patterns:
* paginated listing loops (`get_clusters`, `get_services`, `get_tasks`)
  that follow an optional `nextToken` continuation token;
* batched detail fetches (`get_task_details` with chunk size 100,
  `get_service_details` with chunk size 10) that slice the identifier
  list as `arns[i:i+B] for i in range(0, len(arns), B)`;
* a single-call scope-level fetch (`get_cluster_details`);
plus the status-count aggregation loop of `show_cluster_summary` and the
string helper `truncate_string`.

The remote API (boto3 `ecs_client`) is modelled as a test double: the
listing double is the finite list of pages it serves, one per call, in
order; the describe doubles are functions from the requested identifier
chunk to the returned records.  Instrumented variants also return the
trace of requests issued, so that call counts and request contents can
be stated.  Fallible variants return `Except` to model boto3 exceptions
propagating out of the loops.
-/

/-- One response of a listing call: the identifier page
(`clusterArns` / `serviceArns` / `taskArns`) and the optional
`nextToken` field. -/
structure Page where
  items : List String
  nextToken : Option String
deriving Repr, DecidableEq

/-- The observable outcome of a pagination loop: the accumulated
identifiers and, for each call issued in order, the `nextToken`
argument that the call carried (`none` when the call was made without
a token). -/
structure ListingRun where
  items : List String
  calls : List (Option String)
deriving Repr, DecidableEq

/-- The token argument actually sent on a call, given the Python
variable `next_token`.  The source guards the call with
`if next_token:`, which is Python truthiness: both `None` and the empty
string lead to a call without a `nextToken` argument. -/
def tokenArg : Option String → Option String
  | some t => if t = "" then none else some t
  | none => none

/-- The `while True` pagination loop shared verbatim by `get_clusters`,
`get_services` and `get_tasks`: call the listing operation with
`tokenArg` of the current `next_token`, extend the accumulator with the
returned page, continue with the response's `nextToken` when present,
break when absent.  The double serves its pages positionally, one per
call; `none` is returned when the double runs out of pages while the
loop still wants another call (the loop would keep calling). -/
def paginatedListing : List Page → Option String → Option ListingRun
  | [], _ => none
  | p :: rest, tok =>
    match p.nextToken with
    | some t =>
      match paginatedListing rest (some t) with
      | some r => some ⟨p.items ++ r.items, tokenArg tok :: r.calls⟩
      | none => none
    | none => some ⟨p.items, [tokenArg tok]⟩

/-- `get_clusters(ecs_client)`: run the pagination loop over
`list_clusters`, starting with `next_token = None`. -/
def get_clusters (pages : List Page) : Option ListingRun :=
  paginatedListing pages none

/-- `get_services(ecs_client, cluster_arn)`: the same loop over
`list_services`; the cluster scope only selects which pages the double
serves. -/
def get_services (api : String → List Page) (cluster_arn : String) : Option ListingRun :=
  paginatedListing (api cluster_arn) none

/-- `get_tasks(ecs_client, cluster_arn, service_arn=None)`: the same
loop over `list_tasks`; all four call variants in the source apply the
same `if next_token:` truthiness test, so the token handling is
identical and the scope arguments only select the double's pages. -/
def get_tasks (api : String → Option String → List Page) (cluster_arn : String)
    (service_arn : Option String) : Option ListingRun :=
  paginatedListing (api cluster_arn service_arn) none

/-- The chunking comprehension
`[arns[i:i+B] for i in range(0, len(arns), B)]`: Python's
`range(0, n, B)` has `(n + B - 1) / B` steps `0, B, 2B, ...`, and the
slice `arns[i:i+B]` is `(arns.drop i).take B`. -/
def pySlices {α : Type} (B : Nat) (l : List α) : List (List α) :=
  (List.range ((l.length + B - 1) / B)).map fun i => (l.drop (i * B)).take B

/-- `get_task_details(ecs_client, cluster_arn, task_arns)`: empty input
returns `[]` with no call; otherwise one `describe_tasks` call per
100-element chunk, extending `all_tasks` in chunk order.  The second
component instruments the trace of chunks requested, one call each. -/
def get_task_details {τ : Type} (describe : String → List String → List τ)
    (cluster_arn : String) (task_arns : List String) : List τ × List (List String) :=
  if task_arns.isEmpty then ([], [])
  else
    let task_chunks := pySlices 100 task_arns
    ((task_chunks.map (describe cluster_arn)).flatten, task_chunks)

/-- `get_service_details(ecs_client, cluster_arn, service_arns)`: as
`get_task_details` but with `describe_services` and 10-element chunks. -/
def get_service_details {τ : Type} (describe : String → List String → List τ)
    (cluster_arn : String) (service_arns : List String) : List τ × List (List String) :=
  if service_arns.isEmpty then ([], [])
  else
    let service_chunks := pySlices 10 service_arns
    ((service_chunks.map (describe cluster_arn)).flatten, service_chunks)

/-- `get_cluster_details(ecs_client, cluster_arns)`: empty input returns
`[]` with no call; otherwise a single `describe_clusters` call with the
whole identifier list, returning that response's `clusters`.  The
second component counts the calls issued. -/
def get_cluster_details {γ : Type} (describe : List String → List γ)
    (cluster_arns : List String) : List γ × Nat :=
  if cluster_arns.isEmpty then ([], 0)
  else (describe cluster_arns, 1)

/-- The slice of a task detail record used by the aggregation code. -/
structure TaskDetail where
  lastStatus : String
deriving Repr, DecidableEq

/-- `status_count[s] += 1` on a `defaultdict(int)` rendered as an
insertion-ordered association list: increment the existing entry in
place, or append a fresh entry with count 1. -/
def bump : List (String × Nat) → String → List (String × Nat)
  | [], s => [(s, 1)]
  | (k, v) :: rest, s => if k = s then (k, v + 1) :: rest else (k, v) :: bump rest s

/-- The aggregation loop of `show_cluster_summary`:
`for task in task_details: status_count[task['lastStatus']] += 1`. -/
def statusAggregation (task_details : List TaskDetail) : List (String × Nat) :=
  task_details.foldl (fun status_count task => bump status_count task.lastStatus) []

/-- Dictionary read-out: the count stored for a status, 0 when the
status never occurred (the `defaultdict(int)` default). -/
def dictGet : List (String × Nat) → String → Nat
  | [], _ => 0
  | (k, v) :: rest, s => if k = s then v else dictGet rest s

/-- `truncate_string(s, max_length)`: return `s` unchanged when it fits,
else `s[:max_length-3] + '...'`.  Strings are modelled as character
lists. -/
def truncate_string (s : List Char) (max_length : Nat) : List Char :=
  if s.length ≤ max_length then s else s.take (max_length - 3) ++ ['.', '.', '.']

/-- A fallible pagination loop: each call either raises (boto3
exception, modelled as `Except.error`) or returns a page.  The loop
body performs no handling, so a raise aborts the loop and escapes;
otherwise the loop proceeds exactly as `paginatedListing`. -/
def paginatedListingE {ε : Type} : List (Except ε Page) → Option String →
    Option (Except ε ListingRun)
  | [], _ => none
  | resp :: rest, tok =>
    match resp with
    | Except.error e => some (Except.error e)
    | Except.ok p =>
      match p.nextToken with
      | some t =>
        (paginatedListingE rest (some t)).map
          (Except.map fun r => ⟨p.items ++ r.items, tokenArg tok :: r.calls⟩)
      | none => some (Except.ok ⟨p.items, [tokenArg tok]⟩)

/-- Fallible `get_clusters`. -/
def get_clustersE {ε : Type} (responses : List (Except ε Page)) :
    Option (Except ε ListingRun) :=
  paginatedListingE responses none

/-- The `for chunk in task_chunks` loop when `describe` may raise: the
first raising chunk aborts the loop, discarding the accumulator; later
chunks are never requested.  The second component is the trace of
chunks actually requested. -/
def fetchChunksT {ε τ : Type} (describe : List String → Except ε (List τ)) :
    List (List String) → Except ε (List τ) × List (List String)
  | [] => (Except.ok [], [])
  | c :: rest =>
    match describe c with
    | Except.error e => (Except.error e, [c])
    | Except.ok ts =>
      let r := fetchChunksT describe rest
      (Except.map (fun l => ts ++ l) r.1, c :: r.2)

/-- Fallible `get_task_details`: empty input short-circuits without any
call, otherwise the chunk loop runs with a `describe_tasks` double that
may raise. -/
def get_task_detailsE {ε τ : Type} (describe : String → List String → Except ε (List τ))
    (cluster_arn : String) (task_arns : List String) :
    Except ε (List τ) × List (List String) :=
  if task_arns.isEmpty then (Except.ok [], [])
  else fetchChunksT (describe cluster_arn) (pySlices 100 task_arns)

/-! ## Helper lemmas -/

theorem paginatedListing_run (ps : List Page) (plast : Page) (rest : List Page)
    (tok : Option String) (hps : ∀ p ∈ ps, p.nextToken.isSome = true)
    (hlast : plast.nextToken = none) :
    paginatedListing (ps ++ plast :: rest) tok
      = some ⟨((ps ++ [plast]).map Page.items).flatten,
              tokenArg tok :: ps.map (fun p => tokenArg p.nextToken)⟩ := by
  induction ps generalizing tok with
  | nil => simp [paginatedListing, hlast]
  | cons p ps ih =>
    obtain ⟨t, ht⟩ := Option.isSome_iff_exists.mp (hps p (List.mem_cons_self p ps))
    have h2 := ih (some t) (fun q hq => hps q (List.mem_cons_of_mem p hq))
    simp [paginatedListing, ht, h2]

theorem pySlices_cons {α : Type} (B : Nat) (hB : 0 < B) (l : List α) (hl : l ≠ []) :
    pySlices B l = l.take B :: pySlices B (l.drop B) := by
  have hn : 0 < l.length := List.length_pos.mpr hl
  have hceil : (l.length + B - 1) / B = ((l.drop B).length + B - 1) / B + 1 := by
    rw [List.length_drop]
    rcases le_or_lt l.length B with h | h
    · have h1 : l.length + B - 1 = l.length - 1 + B := by omega
      have h2 : l.length - B = 0 := by omega
      rw [h1, Nat.add_div_right _ hB, h2]
      have h3 : (l.length - 1) / B = 0 := Nat.div_eq_of_lt (by omega)
      have h4 : (0 + B - 1) / B = 0 := Nat.div_eq_of_lt (by omega)
      omega
    · have h1 : l.length + B - 1 = (l.length - B + B - 1) + B := by omega
      rw [h1, Nat.add_div_right _ hB]
  rw [pySlices, hceil, List.range_succ_eq_map, List.map_cons]
  simp only [Nat.zero_mul, List.drop_zero]
  congr 1
  rw [pySlices, List.map_map]
  apply List.map_congr_left
  intro i _
  simp only [Function.comp_apply, List.drop_drop]
  congr 2
  rw [Nat.succ_mul]
  ring

theorem pySlices_flatten {α : Type} (B : Nat) (hB : 0 < B) (l : List α) :
    (pySlices B l).flatten = l := by
  rcases eq_or_ne l [] with rfl | hl
  · simp [pySlices]
  · rw [pySlices_cons B hB l hl, List.flatten_cons,
      pySlices_flatten B hB (l.drop B), List.take_append_drop]
termination_by l.length
decreasing_by
  simp only [List.length_drop]
  have : 0 < l.length := List.length_pos.mpr hl
  omega

theorem pySlices_length {α : Type} (B : Nat) (l : List α) :
    (pySlices B l).length = (l.length + B - 1) / B := by
  simp [pySlices]

theorem pySlices_chunk_le {α : Type} (B : Nat) (l : List α) :
    ∀ c ∈ pySlices B l, c.length ≤ B := by
  intro c hc
  obtain ⟨i, _, rfl⟩ := List.mem_map.mp hc
  simp only [List.length_take]
  exact min_le_left _ _

theorem dictGet_bump_self (m : List (String × Nat)) (s : String) :
    dictGet (bump m s) s = dictGet m s + 1 := by
  induction m with
  | nil => simp [bump, dictGet]
  | cons kv rest ih =>
    obtain ⟨k, v⟩ := kv
    by_cases hk : k = s
    · subst hk
      simp [bump, dictGet]
    · simp [bump, dictGet, hk, ih]

theorem dictGet_bump_ne (m : List (String × Nat)) {s t : String} (h : t ≠ s) :
    dictGet (bump m t) s = dictGet m s := by
  induction m with
  | nil => simp [bump, dictGet, h]
  | cons kv rest ih =>
    obtain ⟨k, v⟩ := kv
    by_cases hk : k = t
    · subst hk
      simp [bump, dictGet, h]
    · by_cases hs : k = s
      · subst hs
        simp [bump, dictGet, hk]
      · simp [bump, dictGet, hk, hs, ih]

theorem dictGet_foldl (l : List String) (m : List (String × Nat)) (s : String) :
    dictGet (l.foldl bump m) s = dictGet m s + l.count s := by
  induction l generalizing m with
  | nil => simp
  | cons a l ih =>
    rw [List.foldl_cons, ih (bump m a), List.count_cons]
    by_cases ha : a = s
    · subst ha
      simp [dictGet_bump_self]
      omega
    · simp [dictGet_bump_ne m ha, ha]

theorem bump_sum (m : List (String × Nat)) (s : String) :
    ((bump m s).map Prod.snd).sum = (m.map Prod.snd).sum + 1 := by
  induction m with
  | nil => simp [bump]
  | cons kv rest ih =>
    obtain ⟨k, v⟩ := kv
    by_cases hk : k = s
    · subst hk
      simp [bump]
      omega
    · simp [bump, hk, ih]
      omega

theorem foldl_bump_sum (l : List String) (m : List (String × Nat)) :
    ((l.foldl bump m).map Prod.snd).sum = (m.map Prod.snd).sum + l.length := by
  induction l generalizing m with
  | nil => simp
  | cons a l ih =>
    rw [List.foldl_cons, ih (bump m a), bump_sum]
    simp
    omega

theorem bump_keys (m : List (String × Nat)) (s : String) :
    ∀ k ∈ (bump m s).map Prod.fst, k ∈ m.map Prod.fst ∨ k = s := by
  induction m with
  | nil =>
    intro k hk
    simp [bump] at hk
    right
    exact hk
  | cons kv rest ih =>
    obtain ⟨k0, v⟩ := kv
    intro k hk
    by_cases h0 : k0 = s
    · subst h0
      simp [bump] at hk
      left
      simpa using hk
    · simp [bump, h0] at hk
      rcases hk with rfl | hk
      · left
        simp
      · rcases ih k (by simpa using hk) with h | h
        · left
          simp [h]
        · right
          exact h

theorem foldl_bump_keys (l : List String) (m : List (String × Nat)) :
    ∀ k ∈ ((l.foldl bump m).map Prod.fst), k ∈ m.map Prod.fst ∨ k ∈ l := by
  induction l generalizing m with
  | nil =>
    intro k hk
    left
    exact hk
  | cons a l ih =>
    intro k hk
    rcases ih (bump m a) k (by simpa using hk) with h | h
    · rcases bump_keys m a k h with h2 | rfl
      · left
        exact h2
      · right
        simp
    · right
      simp [h]

theorem bump_pos (m : List (String × Nat)) (s : String)
    (h : ∀ kv ∈ m, 1 ≤ kv.2) : ∀ kv ∈ bump m s, 1 ≤ kv.2 := by
  induction m with
  | nil =>
    intro kv hkv
    simp [bump] at hkv
    simp [hkv]
  | cons kv0 rest ih =>
    obtain ⟨k0, v⟩ := kv0
    intro kv hkv
    by_cases h0 : k0 = s
    · subst h0
      simp [bump] at hkv
      rcases hkv with rfl | hkv
      · simp
      · exact h kv (by simp [hkv])
    · simp [bump, h0] at hkv
      rcases hkv with rfl | hkv
      · exact h (k0, v) (by simp)
      · exact ih (fun q hq => h q (by simp [hq])) kv hkv

theorem foldl_bump_pos (l : List String) (m : List (String × Nat))
    (h : ∀ kv ∈ m, 1 ≤ kv.2) : ∀ kv ∈ l.foldl bump m, 1 ≤ kv.2 := by
  induction l generalizing m with
  | nil => exact h
  | cons a l ih => exact ih (bump m a) (bump_pos m a h)

theorem statusAggregation_eq_foldl (ts : List TaskDetail) :
    statusAggregation ts = (ts.map TaskDetail.lastStatus).foldl bump [] := by
  rw [statusAggregation, List.foldl_map]

theorem paginatedListingE_error {ε : Type} (goods : List Page) (e : ε)
    (rest : List (Except ε Page)) (tok : Option String)
    (hg : ∀ p ∈ goods, p.nextToken.isSome = true) :
    paginatedListingE (goods.map Except.ok ++ Except.error e :: rest) tok
      = some (Except.error e) := by
  induction goods generalizing tok with
  | nil => simp [paginatedListingE]
  | cons p gs ih =>
    obtain ⟨t, ht⟩ := Option.isSome_iff_exists.mp (hg p (List.mem_cons_self p gs))
    have h2 := ih (some t) (fun q hq => hg q (List.mem_cons_of_mem p hq))
    simp [paginatedListingE, ht, h2, Except.map]

theorem fetchChunksT_error {ε τ : Type} (d : List String → Except ε (List τ)) :
    ∀ (k : Nat) (cs : List (List String)) (ck : List String) (e : ε),
      (∀ c ∈ cs.take k, ∃ r, d c = Except.ok r) →
      cs[k]? = some ck → d ck = Except.error e →
      fetchChunksT d cs = (Except.error e, cs.take (k + 1)) := by
  intro k
  induction k with
  | zero =>
    intro cs ck e _ hk he
    cases cs with
    | nil => simp at hk
    | cons c0 rest =>
      have h0 : c0 = ck := by simpa using hk
      subst h0
      simp [fetchChunksT, he]
  | succ k ih =>
    intro cs ck e hok hk he
    cases cs with
    | nil => simp at hk
    | cons c0 rest =>
      obtain ⟨r, hr⟩ := hok c0 (by simp)
      have hok2 : ∀ c ∈ rest.take k, ∃ r2, d c = Except.ok r2 := by
        intro c hc
        exact hok c (by simp [hc])
      have hk2 : rest[k]? = some ck := by simpa using hk
      have h2 := ih rest ck e hok2 hk2 he
      simp [fetchChunksT, hr, h2, Except.map]

/-! ## Claim theorems -/

/-- C1: for every page sequence served by the listing double in which the
pages before the terminator carry a token and the terminator omits it,
`get_clusters` (and `get_tasks`, which runs the identical loop) returns
exactly the concatenation, in API return order, of the consumed pages'
identifiers — the output is fully determined by the page items, so no
continuation token can appear in it — and issues exactly one call per
page up to and including the first token-free response, never consuming
the pages after it. -/
theorem get_listing_concatenation (ps : List Page) (plast : Page) (rest : List Page)
    (c : String) (s : Option String)
    (hps : ∀ p ∈ ps, p.nextToken.isSome = true) (hlast : plast.nextToken = none) :
    (get_clusters (ps ++ plast :: rest)).map ListingRun.items
        = some (((ps ++ [plast]).map Page.items).flatten)
    ∧ get_tasks (fun _ _ => ps ++ plast :: rest) c s = get_clusters (ps ++ plast :: rest)
    ∧ (get_clusters (ps ++ plast :: rest)).map (fun r => r.calls.length)
        = some (ps.length + 1) := by
  have h := paginatedListing_run ps plast rest none hps hlast
  refine ⟨?_, rfl, ?_⟩
  · simp [get_clusters, h]
  · simp [get_clusters, h]

/-- Witness for C1: a two-page listing with a trailing unserved page. -/
theorem get_listing_concatenation_witness :
    (get_clusters [⟨["a", "b", "c"], some "T"⟩, ⟨["d", "e"], none⟩, ⟨["zz"], none⟩]).map
        ListingRun.items = some ["a", "b", "c", "d", "e"]
    ∧ get_tasks (fun _ _ => [⟨["a", "b", "c"], some "T"⟩, ⟨["d", "e"], none⟩, ⟨["zz"], none⟩])
        "cl" none
        = get_clusters [⟨["a", "b", "c"], some "T"⟩, ⟨["d", "e"], none⟩, ⟨["zz"], none⟩]
    ∧ (get_clusters [⟨["a", "b", "c"], some "T"⟩, ⟨["d", "e"], none⟩, ⟨["zz"], none⟩]).map
        (fun r => r.calls.length) = some 2 :=
  get_listing_concatenation [⟨["a", "b", "c"], some "T"⟩] ⟨["d", "e"], none⟩
    [⟨["zz"], none⟩] "cl" none (by decide) rfl

/-- C5 counterexample: a response carrying the empty-string continuation
token is not passed back on the next call: the loop continues, but the
next call is issued without any token argument, because the source
guards the call with Python truthiness (`if next_token:`), which is
false for `""`. -/
theorem pagination_token_empty_cex :
    (get_clusters [⟨["a"], some ""⟩, ⟨[], none⟩]).map ListingRun.calls = some [none, none]
    ∧ [Page.mk ["a"] (some ""), Page.mk [] none][0]?.map Page.nextToken = some (some "")
    ∧ (get_clusters [⟨["a"], some ""⟩, ⟨[], none⟩]).bind (fun r => r.calls[1]?)
        ≠ some (some "") := by
  decide

/-- C5 amended: every listing response whose continuation token is
non-empty has that token passed back unmodified as the next call's
token argument; the empty-string token is the sole exception — the loop
continues but the next call carries no token. -/
theorem pagination_token_passback (ps : List Page) (plast : Page) (rest : List Page)
    (k : Nat) (p : Page) (t : String)
    (hps : ∀ q ∈ ps, q.nextToken.isSome = true) (hlast : plast.nextToken = none)
    (hk : ps[k]? = some p) (ht : p.nextToken = some t) (hne : t ≠ "") :
    (get_clusters (ps ++ plast :: rest)).bind (fun r => r.calls[k + 1]?)
      = some (some t) := by
  have h := paginatedListing_run ps plast rest none hps hlast
  simp only [get_clusters, h, Option.bind_some]
  simp [List.getElem?_map, hk, ht, tokenArg, hne]

/-- Witness for the amended C5: the token "T" of page 0 is the argument
of call 1. -/
theorem pagination_token_passback_witness :
    (get_clusters [⟨["a"], some "T"⟩, ⟨["b"], none⟩]).bind (fun r => r.calls[1]?)
      = some (some "T") :=
  pagination_token_passback [⟨["a"], some "T"⟩] ⟨["b"], none⟩ [] 0 ⟨["a"], some "T"⟩ "T"
    (by decide) rfl (by decide) rfl (by decide)

/-- C7: the loop issues exactly one call per page it consumes; the
two-page listing (3 identifiers plus a token, then 2 identifiers
without) returns the 5 identifiers in order with exactly 2 calls, and
an empty scope (first page empty, no token) returns the empty sequence
— a value, not an error — with exactly 1 call. -/
theorem pagination_call_per_page :
    (∀ (api : String → List Page) (c : String) (ps : List Page) (plast : Page)
        (rest : List Page), api c = ps ++ plast :: rest →
        (∀ p ∈ ps, p.nextToken.isSome = true) → plast.nextToken = none →
        (get_services api c).map (fun r => r.calls.length) = some (ps.length + 1))
    ∧ get_services (fun _ => [⟨["i1", "i2", "i3"], some "tok"⟩, ⟨["i4", "i5"], none⟩]) "clu"
        = some ⟨["i1", "i2", "i3", "i4", "i5"], [none, some "tok"]⟩
    ∧ get_services (fun _ => [⟨[], none⟩]) "clu" = some ⟨[], [none]⟩ := by
  refine ⟨?_, by decide, by decide⟩
  intro api c ps plast rest hapi hps hlast
  have h := paginatedListing_run ps plast rest none hps hlast
  simp [get_services, hapi, h]

/-- Witness for C7's general conjunct: two served pages, two calls. -/
theorem pagination_call_per_page_witness :
    (get_services (fun _ => [⟨["x"], some "t1"⟩, ⟨["y"], none⟩]) "c1").map
        (fun r => r.calls.length) = some 2 :=
  pagination_call_per_page.1 (fun _ => [⟨["x"], some "t1"⟩, ⟨["y"], none⟩]) "c1"
    [⟨["x"], some "t1"⟩] ⟨["y"], none⟩ [] rfl (by decide) rfl

/-- C2: `get_task_details` issues exactly ⌈L/100⌉ describe calls and
`get_service_details` exactly ⌈L/10⌉ — zero calls on empty input — with
every call requesting at most the batch limit, and returns the
per-chunk responses concatenated in chunk order. -/
theorem batched_fetch_call_count {τ : Type} (describe : String → List String → List τ)
    (c : String) (arns : List String) :
    (get_task_details describe c arns).2.length = (arns.length + 100 - 1) / 100
    ∧ (∀ ch ∈ (get_task_details describe c arns).2, ch.length ≤ 100)
    ∧ (get_task_details describe c arns).1
        = (((get_task_details describe c arns).2).map (describe c)).flatten
    ∧ get_task_details describe c ([] : List String) = ([], [])
    ∧ (get_service_details describe c arns).2.length = (arns.length + 10 - 1) / 10
    ∧ (∀ ch ∈ (get_service_details describe c arns).2, ch.length ≤ 10)
    ∧ (get_service_details describe c arns).1
        = (((get_service_details describe c arns).2).map (describe c)).flatten
    ∧ get_service_details describe c ([] : List String) = ([], []) := by
  cases harns : arns.isEmpty
  · refine ⟨?_, ?_, ?_, rfl, ?_, ?_, ?_, rfl⟩
    · simp [get_task_details, harns, pySlices_length]
    · intro ch hch
      simp only [get_task_details, harns, Bool.false_eq_true, if_false] at hch
      exact pySlices_chunk_le 100 arns ch hch
    · simp only [get_task_details, harns, Bool.false_eq_true, if_false]
    · simp [get_service_details, harns, pySlices_length]
    · intro ch hch
      simp only [get_service_details, harns, Bool.false_eq_true, if_false] at hch
      exact pySlices_chunk_le 10 arns ch hch
    · simp only [get_service_details, harns, Bool.false_eq_true, if_false]
  · have h0 : arns = [] := by
      cases arns
      · rfl
      · simp at harns
    subst h0
    refine ⟨rfl, ?_, rfl, rfl, rfl, ?_, rfl, rfl⟩
    · intro ch hch
      simp [get_task_details] at hch
    · intro ch hch
      simp [get_service_details] at hch

/-- Witness for C2 on a 3-identifier input: one call of 3 identifiers,
results concatenated. -/
theorem batched_fetch_call_count_witness :
    (get_task_details (fun _ ch => [ch.length]) "c" ["a", "b", "c"]).2.length = 1
    ∧ (["a", "b", "c"] : List String).length ≤ 100
    ∧ (get_task_details (fun _ ch => [ch.length]) "c" ["a", "b", "c"]).1 = [3] :=
  ⟨(batched_fetch_call_count (fun _ ch => [ch.length]) "c" ["a", "b", "c"]).1,
   (batched_fetch_call_count (fun _ ch => [ch.length]) "c" ["a", "b", "c"]).2.1
     ["a", "b", "c"] (by decide),
   (batched_fetch_call_count (fun _ ch => [ch.length]) "c" ["a", "b", "c"]).2.2.1⟩

set_option maxRecDepth 8000 in
/-- C3: the chunks requested by the batched fetches are contiguous slices
partitioning the input: their concatenation in chunk order is exactly
the input sequence, each chunk is bounded by the batch limit, and a
250-identifier input under limit 100 is split into sizes 100, 100, 50. -/
theorem batched_fetch_partition {τ : Type} (describe : String → List String → List τ)
    (c : String) (arns : List String) :
    ((get_task_details describe c arns).2).flatten = arns
    ∧ (∀ ch ∈ (get_task_details describe c arns).2, ch.length ≤ 100)
    ∧ ((get_service_details describe c arns).2).flatten = arns
    ∧ (∀ ch ∈ (get_service_details describe c arns).2, ch.length ≤ 10)
    ∧ (get_task_details describe c (List.replicate 250 "t")).2.map List.length
        = [100, 100, 50] := by
  cases harns : arns.isEmpty
  · refine ⟨?_, ?_, ?_, ?_, rfl⟩
    · simp only [get_task_details, harns, Bool.false_eq_true, if_false]
      exact pySlices_flatten 100 (by norm_num) arns
    · intro ch hch
      simp only [get_task_details, harns, Bool.false_eq_true, if_false] at hch
      exact pySlices_chunk_le 100 arns ch hch
    · simp only [get_service_details, harns, Bool.false_eq_true, if_false]
      exact pySlices_flatten 10 (by norm_num) arns
    · intro ch hch
      simp only [get_service_details, harns, Bool.false_eq_true, if_false] at hch
      exact pySlices_chunk_le 10 arns ch hch
  · have h0 : arns = [] := by
      cases arns
      · rfl
      · simp at harns
    subst h0
    refine ⟨rfl, ?_, rfl, ?_, rfl⟩
    · intro ch hch
      simp [get_task_details] at hch
    · intro ch hch
      simp [get_service_details] at hch

/-- Witness for C3 on a 2-identifier input: the single chunk concatenates
back to the input and respects the limit. -/
theorem batched_fetch_partition_witness :
    ((get_task_details (fun _ _ => ([] : List Nat)) "c" ["a", "b"]).2).flatten = ["a", "b"]
    ∧ (["a", "b"] : List String).length ≤ 100 :=
  ⟨(batched_fetch_partition (fun _ _ => ([] : List Nat)) "c" ["a", "b"]).1,
   (batched_fetch_partition (fun _ _ => ([] : List Nat)) "c" ["a", "b"]).2.1
     ["a", "b"] (by decide)⟩

/-- C4: the status mapping assigns to every status string — the domain is
open, any string forms its own bucket — the number of records carrying
it, and the run RUNNING, RUNNING, PENDING, STOPPED, RUNNING yields
RUNNING ↦ 3, PENDING ↦ 1, STOPPED ↦ 1. -/
theorem status_aggregation_counts :
    (∀ (task_details : List TaskDetail) (s : String),
        dictGet (statusAggregation task_details) s
          = (task_details.map TaskDetail.lastStatus).count s)
    ∧ statusAggregation
        [⟨"RUNNING"⟩, ⟨"RUNNING"⟩, ⟨"PENDING"⟩, ⟨"STOPPED"⟩, ⟨"RUNNING"⟩]
        = [("RUNNING", 3), ("PENDING", 1), ("STOPPED", 1)] := by
  refine ⟨?_, by decide⟩
  intro ts s
  rw [statusAggregation_eq_foldl, dictGet_foldl]
  simp [dictGet]

/-- C9: the counts of the status mapping sum to the number of input
records, every key of the mapping is the status of some input record,
and every stored count is at least 1. -/
theorem status_aggregation_invariants (ts : List TaskDetail) (kv : String × Nat)
    (h : kv ∈ statusAggregation ts) :
    ((statusAggregation ts).map Prod.snd).sum = ts.length
    ∧ kv.1 ∈ ts.map TaskDetail.lastStatus
    ∧ 1 ≤ kv.2 := by
  rw [statusAggregation_eq_foldl] at h ⊢
  refine ⟨?_, ?_, ?_⟩
  · rw [foldl_bump_sum]
    simp
  · rcases foldl_bump_keys (ts.map TaskDetail.lastStatus) [] kv.1
      (List.mem_map_of_mem Prod.fst h) with h2 | h2
    · simp at h2
    · exact h2
  · exact foldl_bump_pos _ [] (by simp) kv h

/-- Witness for C9 on three records: counts sum to 3, the key RUNNING
occurs in the input, and its count 2 is at least 1. -/
theorem status_aggregation_invariants_witness :
    ((statusAggregation [⟨"RUNNING"⟩, ⟨"RUNNING"⟩, ⟨"STOPPED"⟩]).map Prod.snd).sum = 3
    ∧ "RUNNING" ∈ ([⟨"RUNNING"⟩, ⟨"RUNNING"⟩, ⟨"STOPPED"⟩] : List TaskDetail).map
        TaskDetail.lastStatus
    ∧ 1 ≤ 2 :=
  status_aggregation_invariants [⟨"RUNNING"⟩, ⟨"RUNNING"⟩, ⟨"STOPPED"⟩]
    ("RUNNING", 2) (by decide)

/-- C6: a raising remote call aborts the whole operation with the error
unmodified and no partial aggregation: the pagination loop returns the
failure of its first failing call and no accumulated identifiers, and
the chunk loop of `get_task_details` raises the first failing chunk's
error, having requested exactly the chunks up to and including the
failing one — each once, no retry — and discarding every chunk result
already fetched. -/
theorem error_propagation {ε τ : Type} :
    (∀ (goods : List Page) (e : ε) (rest : List (Except ε Page)),
        (∀ p ∈ goods, p.nextToken.isSome = true) →
        get_clustersE (goods.map Except.ok ++ Except.error e :: rest)
          = some (Except.error e))
    ∧ (∀ (describe : String → List String → Except ε (List τ)) (c : String)
        (arns : List String) (k : Nat) (ck : List String) (e : ε),
        (∀ ch ∈ (pySlices 100 arns).take k, ∃ r, describe c ch = Except.ok r) →
        (pySlices 100 arns)[k]? = some ck → describe c ck = Except.error e →
        get_task_detailsE describe c arns
          = (Except.error e, (pySlices 100 arns).take (k + 1))) := by
  constructor
  · intro goods e rest hg
    exact paginatedListingE_error goods e rest none hg
  · intro d c arns k ck e hok hk he
    have harns : arns.isEmpty = false := by
      cases arns
      · simp [pySlices] at hk
      · rfl
    simp only [get_task_detailsE, harns, Bool.false_eq_true, if_false]
    exact fetchChunksT_error (d c) k (pySlices 100 arns) ck e hok hk he

/-- Witness for C6: a failing second listing call and a failing first
chunk call both surface their error with no partial results. -/
theorem error_propagation_witness :
    get_clustersE [Except.ok (Page.mk ["a"] (some "T")), Except.error "boom"]
      = some (Except.error "boom")
    ∧ get_task_detailsE (fun _ _ => (Except.error "boom" : Except String (List Nat)))
        "c" ["x"]
      = (Except.error "boom", [["x"]]) :=
  ⟨(error_propagation (ε := String) (τ := Nat)).1 [⟨["a"], some "T"⟩] "boom" []
      (by decide),
   (error_propagation (ε := String) (τ := Nat)).2 (fun _ _ => Except.error "boom")
      "c" ["x"] 0 ["x"] "boom" (by simp) rfl rfl⟩

/-- C8: `get_cluster_details` performs exactly one `describe_clusters`
call for every non-empty identifier list, whatever its length, passing
the whole list in that single call and returning that response's
clusters, and performs zero calls on empty input, returning the empty
sequence. -/
theorem cluster_details_single_call {γ : Type} (describe : List String → List γ)
    (cluster_arns : List String) (h : cluster_arns ≠ []) :
    get_cluster_details describe cluster_arns = (describe cluster_arns, 1)
    ∧ get_cluster_details describe ([] : List String) = ([], 0) := by
  constructor
  · have h2 : cluster_arns.isEmpty = false := by
      cases cluster_arns
      · exact absurd rfl h
      · rfl
    simp [get_cluster_details, h2]
  · rfl

/-- Witness for C8 on a two-identifier input. -/
theorem cluster_details_single_call_witness :
    get_cluster_details (fun l => [l.length]) ["a", "b"] = ([2], 1)
    ∧ get_cluster_details (fun l => [l.length]) ([] : List String) = ([], 0) :=
  cluster_details_single_call (fun l => [l.length]) ["a", "b"] (by decide)

/-- C10: for `max_length ≥ 3`, `truncate_string` returns the input
unchanged when it fits, and otherwise a string of length exactly
`max_length` whose last three characters are "..." and whose first
`max_length - 3` characters are the corresponding prefix of the
input. -/
theorem truncate_string_spec (s : List Char) (max_length : Nat) (h3 : 3 ≤ max_length) :
    (s.length ≤ max_length → truncate_string s max_length = s)
    ∧ (max_length < s.length →
        (truncate_string s max_length).length = max_length
        ∧ (truncate_string s max_length).drop (max_length - 3) = ['.', '.', '.']
        ∧ (truncate_string s max_length).take (max_length - 3)
            = s.take (max_length - 3)) := by
  constructor
  · intro hle
    simp [truncate_string, hle]
  · intro hgt
    have hnot : ¬ s.length ≤ max_length := by omega
    have htk : (s.take (max_length - 3)).length = max_length - 3 := by
      rw [List.length_take]
      omega
    refine ⟨?_, ?_, ?_⟩
    · simp only [truncate_string, if_neg hnot, List.length_append, List.length_take,
        List.length_cons, List.length_nil]
      omega
    · have hd := List.drop_left (s.take (max_length - 3)) ['.', '.', '.']
      rw [htk] at hd
      simp only [truncate_string, if_neg hnot]
      exact hd
    · have ht2 := List.take_left (s.take (max_length - 3)) ['.', '.', '.']
      rw [htk] at ht2
      simp only [truncate_string, if_neg hnot]
      exact ht2

/-- Witness for C10: a fitting string passes through; a six-character
string truncated to 5 keeps 2 characters and gains the ellipsis. -/
theorem truncate_string_spec_witness :
    truncate_string ['a', 'b'] 5 = ['a', 'b']
    ∧ (truncate_string ['a', 'b', 'c', 'd', 'e', 'f'] 5).length = 5
    ∧ (truncate_string ['a', 'b', 'c', 'd', 'e', 'f'] 5).drop 2 = ['.', '.', '.']
    ∧ (truncate_string ['a', 'b', 'c', 'd', 'e', 'f'] 5).take 2
        = ['a', 'b', 'c', 'd', 'e', 'f'].take 2 :=
  ⟨(truncate_string_spec ['a', 'b'] 5 (by decide)).1 (by decide),
   ((truncate_string_spec ['a', 'b', 'c', 'd', 'e', 'f'] 5 (by decide)).2 (by decide)).1,
   ((truncate_string_spec ['a', 'b', 'c', 'd', 'e', 'f'] 5 (by decide)).2 (by decide)).2.1,
   ((truncate_string_spec ['a', 'b', 'c', 'd', 'e', 'f'] 5 (by decide)).2 (by decide)).2.2⟩
